import Mathlib

/-!
Verification of the block-segmentation + map-reduce aggregation engine of the
Blender_Editor repository (files `agentes/agente_template/src/estilo_pipeline.py`
and `agentes/agente_template/src/estilo/minerar_estilo.py`).

The Python code is shallowly embedded: Python strings are Lean `String`
(a list of characters), decoded JSON documents are the inductive `PyVal`,
code that may raise is modelled with `Except`, and the external generative
call is a parameter giving the outcome (string or exception) of each
invocation.
-/

namespace Estilo

/-- Python `str.isspace` and regex `\s` character class (whitespace code
points stripped by `str.strip()` and matched by `\s` in the fence regex). -/
def pyIsSpace (c : Char) : Bool :=
  c = ' ' || c = '\t' || c = '\n' || c = '\r' ||
  c.toNat = 0x0b || c.toNat = 0x0c ||
  c.toNat = 0x1c || c.toNat = 0x1d || c.toNat = 0x1e || c.toNat = 0x1f ||
  c.toNat = 0x85 || c.toNat = 0xa0 || c.toNat = 0x1680 ||
  (0x2000 ≤ c.toNat && c.toNat ≤ 0x200a) ||
  c.toNat = 0x2028 || c.toNat = 0x2029 ||
  c.toNat = 0x202f || c.toNat = 0x205f || c.toNat = 0x3000

/-- Line-boundary characters recognised by Python `str.splitlines`. -/
def isLineBoundary (c : Char) : Bool :=
  c = '\n' || c = '\r' ||
  c.toNat = 0x0b || c.toNat = 0x0c ||
  c.toNat = 0x1c || c.toNat = 0x1d || c.toNat = 0x1e ||
  c.toNat = 0x85 || c.toNat = 0x2028 || c.toNat = 0x2029

/-- Python `str.strip()`: drop leading and trailing whitespace characters. -/
def pyStrip (l : List Char) : List Char :=
  ((l.dropWhile pyIsSpace).reverse.dropWhile pyIsSpace).reverse

/-- Worker for `pySplitlines`: `cur` is the line accumulated so far and
`afterCR` records that the previous character was a carriage return, so
that a `"\r\n"` pair counts as one boundary; a final segment is kept only
when it is non-empty, exactly as in Python `str.splitlines`. -/
def pySplitlinesAux (afterCR : Bool) (cur : List Char) : List Char → List (List Char)
  | [] => if cur = [] then [] else [cur]
  | c :: rest =>
    if afterCR && c == '\n' then
      pySplitlinesAux false cur rest
    else if isLineBoundary c then
      cur :: pySplitlinesAux (c == '\r') [] rest
    else
      pySplitlinesAux false (cur ++ [c]) rest

/-- Python `str.splitlines()` on a character list. -/
def pySplitlines (l : List Char) : List (List Char) :=
  pySplitlinesAux false [] l

/-- Python `"\n".join(...)` on character lists. -/
def nlJoin : List (List Char) → List Char
  | [] => []
  | [b] => b
  | b :: b2 :: rest => b ++ '\n' :: nlJoin (b2 :: rest)

/-- Loop body of `StyleMiner._dividir_em_blocos` (identical in
`minerar_estilo.dividir_em_blocos`): walk the lines, flushing the
accumulated block `atual` when appending the next line would push the
running tally `tamanho` (sum of line lengths, newlines not counted) past
`maxChars` and the buffer is non-empty. -/
def dividirLoop (maxChars : Nat) : List (List Char) → List (List Char) → Nat → List (List Char)
  | [], atual, _tamanho => if atual = [] then [] else [nlJoin atual]
  | ln :: rest, atual, tamanho =>
    if tamanho + ln.length > maxChars ∧ atual ≠ [] then
      nlJoin atual :: dividirLoop maxChars rest [ln] ln.length
    else
      dividirLoop maxChars rest (atual ++ [ln]) (tamanho + ln.length)

/-- `StyleMiner._dividir_em_blocos(texto, max_chars)`: split `texto` into
line-preserving blocks bounded by the running character tally. -/
def dividir_em_blocos (texto : String) (maxChars : Nat) : List String :=
  (dividirLoop maxChars (pySplitlines texto.data) [] 0).map (fun l => String.mk l)

/-- Python `"\n".join` of the produced blocks, as used by the
reconstruction property of the spec. -/
def joinNl (bs : List String) : String :=
  String.mk (nlJoin (bs.map (fun b => b.data)))

/-- Decoded structured values, as produced by Python `json.loads`: null,
booleans, numbers (kept as their source lexeme: no claim inspects numeric
semantics), strings, arrays, and records.  A record is the insertion-order
association list of a Python dict. -/
inductive PyVal where
  | null : PyVal
  | bool (b : Bool) : PyVal
  | num (lexeme : String) : PyVal
  | str (s : String) : PyVal
  | list (items : List PyVal) : PyVal
  | dict (entries : List (String × PyVal)) : PyVal

/-- Python dict lookup on the insertion-order association list. -/
def dlookup : List (String × PyVal) → String → Option PyVal
  | [], _ => none
  | (k0, v0) :: rest, k => if k0 = k then some v0 else dlookup rest k

/-- Python dict assignment `d[k] = v`: overwrite in place, else append. -/
def dinsert : List (String × PyVal) → String → PyVal → List (String × PyVal)
  | [], k, v => [(k, v)]
  | (k0, v0) :: rest, k, v =>
    if k0 = k then (k0, v) :: rest else (k0, v0) :: dinsert rest k v

/-- Python `d.setdefault(k, v)`: keep an existing entry, else append. -/
def dsetdefault (es : List (String × PyVal)) (k : String) (v : PyVal) : List (String × PyVal) :=
  if (dlookup es k).isSome then es else es ++ [(k, v)]

/-- Key-membership test `k in d`. -/
def dhasKey (es : List (String × PyVal)) (k : String) : Bool :=
  (dlookup es k).isSome

/-- Whether a value is a record (Python `isinstance(x, dict)`). -/
def isDict : PyVal → Bool
  | .dict _ => true
  | _ => false

/-- Whitespace skipped between JSON tokens (`json.decoder` WHITESPACE,
the class `[ \t\n\r]`). -/
def jskipWs (l : List Char) : List Char :=
  l.dropWhile (fun c => c = ' ' || c = '\t' || c = '\n' || c = '\r')

/-- Value of one hex digit of a `\uXXXX` escape. -/
def hexVal (c : Char) : Option Nat :=
  if '0' ≤ c ∧ c ≤ '9' then some (c.toNat - 48)
  else if 'a' ≤ c ∧ c ≤ 'f' then some (c.toNat - 87)
  else if 'A' ≤ c ∧ c ≤ 'F' then some (c.toNat - 55)
  else none

/-- Four hex digits of a `\uXXXX` escape. -/
def parse4Hex : List Char → Option (Nat × List Char)
  | a :: b :: c :: d :: rest =>
    match hexVal a, hexVal b, hexVal c, hexVal d with
    | some x, some y, some z, some w => some (((x * 16 + y) * 16 + z) * 16 + w, rest)
    | _, _, _, _ => none
  | _ => none

/-- Code point to character; lone surrogates (which Python strings can
carry but Lean characters cannot) map to U+FFFD. -/
def codepointChar (n : Nat) : Char :=
  if 0xd800 ≤ n ∧ n ≤ 0xdfff then Char.ofNat 0xfffd else Char.ofNat n

/-- Prepend a character to the pending string-body result. -/
def consChar (c : Char) : Except String (List Char × List Char) → Except String (List Char × List Char)
  | .ok (cs, rest) => .ok (c :: cs, rest)
  | .error e => .error e

/-- Body of a JSON string, positioned just after the opening quote, strict
mode as in `json.loads`: raw control characters are rejected, escapes are
decoded, surrogate pairs are combined.  Returns content and the input
remaining after the closing quote. -/
def parseStrBody : Nat → List Char → Except String (List Char × List Char)
  | 0, _ => .error "Unterminated string"
  | _ + 1, [] => .error "Unterminated string"
  | fuel + 1, c :: rest =>
    if c = '"' then .ok ([], rest)
    else if c = '\\' then
      match rest with
      | [] => .error "Unterminated string"
      | e :: rest2 =>
        if e = '"' then consChar '"' (parseStrBody fuel rest2)
        else if e = '\\' then consChar '\\' (parseStrBody fuel rest2)
        else if e = '/' then consChar '/' (parseStrBody fuel rest2)
        else if e = 'b' then consChar (Char.ofNat 8) (parseStrBody fuel rest2)
        else if e = 'f' then consChar (Char.ofNat 12) (parseStrBody fuel rest2)
        else if e = 'n' then consChar '\n' (parseStrBody fuel rest2)
        else if e = 'r' then consChar '\r' (parseStrBody fuel rest2)
        else if e = 't' then consChar '\t' (parseStrBody fuel rest2)
        else if e = 'u' then
          match parse4Hex rest2 with
          | none => .error "Invalid hex escape"
          | some (n, rest3) =>
            if 0xd800 ≤ n ∧ n ≤ 0xdbff then
              match rest3 with
              | '\\' :: 'u' :: rest4 =>
                match parse4Hex rest4 with
                | some (m, rest5) =>
                  if 0xdc00 ≤ m ∧ m ≤ 0xdfff then
                    consChar (Char.ofNat (0x10000 + (n - 0xd800) * 0x400 + (m - 0xdc00)))
                      (parseStrBody fuel rest5)
                  else consChar (codepointChar n) (parseStrBody fuel ('\\' :: 'u' :: rest4))
                | none => consChar (codepointChar n) (parseStrBody fuel ('\\' :: 'u' :: rest4))
              | _ => consChar (codepointChar n) (parseStrBody fuel rest3)
            else consChar (codepointChar n) (parseStrBody fuel rest3)
        else .error "Invalid escape"
    else if c.toNat < 0x20 then .error "Invalid control character"
    else consChar c (parseStrBody fuel rest)

/-- Optional fraction group `(\.\d+)?` of the numeric token: the consumed
characters and the remaining input (nothing consumed when absent). -/
def parseFrac (l : List Char) : List Char × List Char :=
  match l with
  | '.' :: r =>
    if (r.takeWhile Char.isDigit) = [] then ([], l)
    else ('.' :: r.takeWhile Char.isDigit, r.dropWhile Char.isDigit)
  | _ => ([], l)

/-- Optional exponent group `([eE][-+]?\d+)?` of the numeric token. -/
def parseExp (l : List Char) : List Char × List Char :=
  match l with
  | e :: s :: r2 =>
    if e = 'e' ∨ e = 'E' then
      if s = '+' ∨ s = '-' then
        if (r2.takeWhile Char.isDigit) = [] then ([], l)
        else (e :: s :: r2.takeWhile Char.isDigit, r2.dropWhile Char.isDigit)
      else
        if s.isDigit then
          (e :: (s :: r2).takeWhile Char.isDigit, (s :: r2).dropWhile Char.isDigit)
        else ([], l)
    else ([], l)
  | _ => ([], l)

/-- Numeric token per the `json.decoder` NUMBER_RE regex
`-?(0|[1-9]\d*)(\.\d+)?([eE][-+]?\d+)?`; the matched lexeme is kept. -/
def parseNumber (l : List Char) : Option (String × List Char) :=
  let (sign, l1) : List Char × List Char :=
    match l with
    | '-' :: rest => (['-'], rest)
    | _ => ([], l)
  match l1 with
  | [] => none
  | c :: rest =>
    if c = '0' then
      let (frac, l3) := parseFrac rest
      let (ex, l4) := parseExp l3
      some (String.mk (sign ++ '0' :: (frac ++ ex)), l4)
    else if c.isDigit then
      let intPart := c :: rest.takeWhile Char.isDigit
      let l2 := rest.dropWhile Char.isDigit
      let (frac, l3) := parseFrac l2
      let (ex, l4) := parseExp l3
      some (String.mk (sign ++ intPart ++ frac ++ ex), l4)
    else none

mutual

/-- One JSON value, scanner dispatch in the order of `json.scanner`. -/
def parseVal : Nat → List Char → Except String (PyVal × List Char)
  | 0, _ => .error "Recursion limit exceeded"
  | fuel + 1, l =>
    match l with
    | [] => .error "Expecting value"
    | '"' :: rest =>
      match parseStrBody (rest.length + 1) rest with
      | .ok (cs, rest2) => .ok (.str (String.mk cs), rest2)
      | .error e => .error e
    | '\x7b' :: rest =>
      match jskipWs rest with
      | '\x7d' :: rest2 => .ok (.dict [], rest2)
      | r => match parseMembers fuel r [] with
        | .ok (es, rest2) => .ok (.dict es, rest2)
        | .error e => .error e
    | '[' :: rest =>
      match jskipWs rest with
      | ']' :: rest2 => .ok (.list [], rest2)
      | r => match parseElems fuel r [] with
        | .ok (xs, rest2) => .ok (.list xs, rest2)
        | .error e => .error e
    | 'n' :: 'u' :: 'l' :: 'l' :: r => .ok (.null, r)
    | 't' :: 'r' :: 'u' :: 'e' :: r => .ok (.bool true, r)
    | 'f' :: 'a' :: 'l' :: 's' :: 'e' :: r => .ok (.bool false, r)
    | _ =>
      match parseNumber l with
      | some (lex, r) => .ok (.num lex, r)
      | none =>
        match l with
        | 'N' :: 'a' :: 'N' :: r => .ok (.num "NaN", r)
        | 'I' :: 'n' :: 'f' :: 'i' :: 'n' :: 'i' :: 't' :: 'y' :: r => .ok (.num "Infinity", r)
        | '-' :: 'I' :: 'n' :: 'f' :: 'i' :: 'n' :: 'i' :: 't' :: 'y' :: r => .ok (.num "-Infinity", r)
        | _ => .error "Expecting value"

/-- Members of a JSON object, positioned at a property name; duplicate
keys overwrite in place, as `dict(pairs)` does. -/
def parseMembers : Nat → List Char → List (String × PyVal) → Except String (List (String × PyVal) × List Char)
  | 0, _, _ => .error "Recursion limit exceeded"
  | fuel + 1, l, acc =>
    match l with
    | '"' :: rest =>
      match parseStrBody (rest.length + 1) rest with
      | .error e => .error e
      | .ok (cs, rest2) =>
        match jskipWs rest2 with
        | ':' :: rest3 =>
          match parseVal fuel (jskipWs rest3) with
          | .error e => .error e
          | .ok (v, rest4) =>
            let acc2 := dinsert acc (String.mk cs) v
            match jskipWs rest4 with
            | ',' :: rest5 => parseMembers fuel (jskipWs rest5) acc2
            | '\x7d' :: rest5 => .ok (acc2, rest5)
            | _ => .error "Expecting delimiter"
        | _ => .error "Expecting colon delimiter"
    | _ => .error "Expecting property name enclosed in double quotes"

/-- Elements of a JSON array, positioned at a value. -/
def parseElems : Nat → List Char → List PyVal → Except String (List PyVal × List Char)
  | 0, _, _ => .error "Recursion limit exceeded"
  | fuel + 1, l, acc =>
    match parseVal fuel l with
    | .error e => .error e
    | .ok (v, rest) =>
      match jskipWs rest with
      | ',' :: rest2 => parseElems fuel (jskipWs rest2) (acc ++ [v])
      | ']' :: rest2 => .ok (acc ++ [v], rest2)
      | _ => .error "Expecting delimiter"

end

/-- Python `json.loads`: skip surrounding whitespace, decode one value,
and reject trailing data. -/
def json_loads (s : String) : Except String PyVal :=
  match parseVal (2 * s.length + 8) (jskipWs s.data) with
  | .error e => .error e
  | .ok (v, rest) => if jskipWs rest = [] then .ok v else .error "Extra data"

example : json_loads "" = .error "Expecting value" := rfl
example : json_loads "\x7b\"a\": 1\x7d" = .ok (.dict [("a", .num "1")]) := rfl
example : json_loads "[1, \"x\", null, true]" = .ok (.list [.num "1", .str "x", .null, .bool true]) := rfl
example : json_loads "not json" = .error "Expecting value" := rfl
example : json_loads "-1.5e3" = .ok (.num "-1.5e3") := rfl
example : json_loads " \"a\\u00e9b\" " = .ok (.str "aéb") := rfl
example : json_loads "\x7b\"a\": 1, \"a\": 2\x7d" = .ok (.dict [("a", .num "2")]) := rfl
example : json_loads "01" = .error "Extra data" := rfl

/-- Python string slice `s[:n]` (by code points). -/
def pyTake (s : String) (n : Nat) : String :=
  String.mk (s.data.take n)

/-- First alternative of the fence regex, `^```(?:json)?\s*` (case
insensitive, multiline): number of characters matched at a line start, or
`none`.  The optional `json` group is greedy; `\s*` takes the maximal
whitespace run. -/
def matchOpenFence (l : List Char) : Option Nat :=
  match l with
  | t1 :: t2 :: t3 :: rest =>
    if t1 = '\x60' ∧ t2 = '\x60' ∧ t3 = '\x60' then
      let (jn, rest2) : Nat × List Char :=
        match rest with
        | a :: b :: c :: d :: r =>
          if a.toLower = 'j' ∧ b.toLower = 's' ∧ c.toLower = 'o' ∧ d.toLower = 'n' then
            (4, r)
          else (0, rest)
        | _ => (0, rest)
      some (3 + jn + (rest2.takeWhile pyIsSpace).length)
    else none
  | _ => none

/-- Second alternative of the fence regex, `\s*```$` under `re.M`: `$`
matches at the end of the input or before a newline. -/
def matchCloseFence (l : List Char) : Option Nat :=
  match l.dropWhile pyIsSpace with
  | t1 :: t2 :: t3 :: rest =>
    if t1 = '\x60' ∧ t2 = '\x60' ∧ t3 = '\x60' ∧ (rest = [] ∨ rest.head? = some '\n') then
      some ((l.takeWhile pyIsSpace).length + 3)
    else none
  | _ => none

/-- Scanner of `re.sub(pattern, "", txt)` for a two-alternative pattern
given by the matchers `fopen` (anchored at line starts) and `fclose`: at
each position try the first alternative, then the second; on a match,
drop the matched characters and continue after them, otherwise emit the
character.  `als` records whether the current position follows a newline
or is the start. -/
def subFencesGo (fopen fclose : List Char → Option Nat) : Nat → Bool → List Char → List Char
  | 0, _, l => l
  | _ + 1, _, [] => []
  | fuel + 1, als, c :: rest =>
    match (if als then fopen (c :: rest) else none) with
    | some n =>
      subFencesGo fopen fclose fuel
        (((c :: rest).take n).getLast? == some '\n') ((c :: rest).drop n)
    | none =>
      match fclose (c :: rest) with
      | some n =>
        subFencesGo fopen fclose fuel
          (((c :: rest).take n).getLast? == some '\n') ((c :: rest).drop n)
      | none => c :: subFencesGo fopen fclose fuel (c == '\n') rest

/-- The scanner of `re.sub(r"^```(?:json)?\s*|\s*```$", "", txt,
flags=re.I | re.M)`: the generic scanner instantiated with the two
alternatives of the fence pattern. -/
def subFencesAux (fuel : Nat) (als : Bool) (l : List Char) : List Char :=
  subFencesGo matchOpenFence matchCloseFence fuel als l

/-- Fence removal on the stripped text (both alternatives consume at
least three characters, so `length + 1` steps always suffice). -/
def subFences (l : List Char) : List Char :=
  subFencesAux (l.length + 1) true l

/-- `StyleMiner._strip_code_fences`: strip surrounding whitespace and, if
the text then starts with a triple backtick, remove fence markers. -/
def strip_code_fences (payload : String) : String :=
  let txt := String.mk (pyStrip payload.data)
  if txt.data.take 3 = ['\x60', '\x60', '\x60'] then String.mk (subFences txt.data)
  else txt

mutual

/-- Python `str()` rendering of a decoded value, used only to build the
`_amostra` sample of the aggregator fallback record (numeric and escape
formatting approximated; no claim observes this text). -/
def pyRepr : PyVal → String
  | .null => "None"
  | .bool true => "True"
  | .bool false => "False"
  | .num lex => lex
  | .str s => "\x27" ++ s ++ "\x27"
  | .list xs => "[" ++ pyReprList xs ++ "]"
  | .dict es => "\x7b" ++ pyReprDict es ++ "\x7d"

/-- Comma-separated renderings of list items. -/
def pyReprList : List PyVal → String
  | [] => ""
  | [x] => pyRepr x
  | x :: y :: rest => pyRepr x ++ ", " ++ pyReprList (y :: rest)

/-- Comma-separated renderings of dict entries. -/
def pyReprDict : List (String × PyVal) → String
  | [] => ""
  | [(k, v)] => "\x27" ++ k ++ "\x27: " ++ pyRepr v
  | (k, v) :: e :: rest => "\x27" ++ k ++ "\x27: " ++ pyRepr v ++ ", " ++ pyReprDict (e :: rest)

end

/-- `StyleMiner._json_load_safely`: fence-strip then `json.loads` inside a
`try`; any failure yields the parse-failure marker with a 1000-character
sample of the original (pre-strip) payload. -/
def json_load_safely (payload : String) : PyVal :=
  match json_loads (strip_code_fences payload) with
  | .ok v => v
  | .error _ =>
    .dict [("_erro_parse_json", .bool true), ("_amostra_resposta", .str (pyTake payload 1000))]

/-- Loop of `StyleMiner.analisar_por_blocos` over the numbered blocks.
The external call `self.engine.gerar("MINERAR_ESTILO_BLOCO", ...)` is
modelled by `eng`, giving for each invocation (block index, block text)
either the returned string or the raised error; the `try` block covers the
call, so an exception becomes the invocation-failure marker. -/
def analisarGo (eng : Nat → String → Except String String) : Nat → List String → List PyVal
  | _, [] => []
  | i, bloco :: rest =>
    (match eng i bloco with
      | .error e => .dict [("_erro_chamada_ia", .bool true), ("_mensagem", .str e)]
      | .ok resp => json_load_safely resp) :: analisarGo eng (i + 1) rest

/-- `StyleMiner.analisar_por_blocos`: one `AnalysisResult` per block, in
order (the per-block partial files are a side effect of the same values
and are not modelled separately). -/
def analisar_por_blocos (corpus : String) (maxChars : Nat)
    (eng : Nat → String → Except String String) : List PyVal :=
  analisarGo eng 0 (dividir_em_blocos corpus maxChars)

/-- `StyleMiner.fundir_analises`: the fusion call outcome is `eng` (the
serialized `analises` only feed the prompt of that call); `now` is the
`datetime.utcnow().isoformat()` timestamp.  A parsed record is stamped
with the provenance fields; anything else is replaced by the
format-error fallback record. -/
def fundir_analises (analises : List PyVal) (eng : Except String String) (now : String) : PyVal :=
  let final : PyVal :=
    match eng with
    | .error e => .dict [("_erro_fusao", .bool true), ("_mensagem", .str e)]
    | .ok resp => json_load_safely resp
  match final with
  | .dict es =>
    let es1 := dsetdefault es "versao" (.str "2.0-blocos")
    let es2 := dinsert es1 "gerado_em" (.str now)
    let es3 := dsetdefault es2 "_fonte" (.str "fusão_de_blocos")
    .dict es3
  | other =>
    .dict [("_erro_formato", .bool true),
           ("_amostra", .str (pyTake (pyRepr other) 800)),
           ("versao", .str "2.0-blocos"),
           ("gerado_em", .str now),
           ("_fonte", .str "fusão_de_blocos")]

/-- Stable insertion into a name-sorted file list (Python `sorted` on
path strings, lexicographic by code point). -/
def insertFile (f : String × String) : List (String × String) → List (String × String)
  | [] => [f]
  | g :: rest => if f.1 ≤ g.1 then f :: g :: rest else g :: insertFile f rest

/-- Python `sorted` of the directory listing. -/
def sortFiles : List (String × String) → List (String × String)
  | [] => []
  | f :: rest => insertFile f (sortFiles rest)

/-- The corpus built by `StyleMiner.carregar_corpus` from the `.txt`
files of `limpas_dir` (modelled as name-content pairs): read in
lexicographic name order, optionally cleaned, joined with a blank line,
surrounding whitespace stripped.  `limpar` stands for
`limpar_texto_bruto`, applied only when `clean_first` is set. -/
def corpus_of (files : List (String × String)) (cleanFirst : Bool)
    (limpar : String → String) : String :=
  let textos := (sortFiles files).map (fun f => if cleanFirst then limpar f.2 else f.2)
  String.mk (pyStrip (String.intercalate "\n\n" textos).data)

/-- Diagnostic of the empty-corpus `RuntimeError`. -/
def emptyCorpusMsg (limpasDir : String) : String :=
  "Nenhum texto encontrado em " ++ limpasDir ++
  ". Coloque suas transcrições limpas (.txt) nessa pasta."

/-- `StyleMiner.carregar_corpus`: the corpus, or the `RuntimeError` when
it is empty. -/
def carregar_corpus (files : List (String × String)) (cleanFirst : Bool)
    (limpar : String → String) (limpasDir : String) : Except String String :=
  let corpus := corpus_of files cleanFirst limpar
  if corpus = "" then .error (emptyCorpusMsg limpasDir) else .ok corpus

/-- `StyleMiner.rodar`: load the corpus (propagating the empty-corpus
error), analyse per block, fuse, and persist; the returned value is the
stylebook written by `salvar_final`. -/
def rodar (files : List (String × String)) (cleanFirst : Bool) (limpar : String → String)
    (limpasDir : String) (maxChars : Nat) (engBloco : Nat → String → Except String String)
    (engFusao : Except String String) (now : String) : Except String PyVal :=
  match carregar_corpus files cleanFirst limpar limpasDir with
  | .error e => .error e
  | .ok corpus =>
    let analises := analisar_por_blocos corpus maxChars engBloco
    .ok (fundir_analises analises engFusao now)

namespace MinerarEstilo

/-- The `_json_load_safely` of `minerar_estilo.py`: no fence stripping,
and the failure sample keeps only 800 characters. -/
def json_load_safely (payload : String) : PyVal :=
  match json_loads payload with
  | .ok v => v
  | .error _ =>
    .dict [("_erro_parse_json", .bool true), ("_amostra_resposta", .str (pyTake payload 800))]

/-- Loop of `minerar_estilo.analisar_blocos` (try/except/else around the
external call). -/
def analisarGo (eng : Nat → String → Except String String) : Nat → List String → List PyVal
  | _, [] => []
  | i, bloco :: rest =>
    (match eng i bloco with
      | .error e => .dict [("_erro_chamada_ia", .bool true), ("_mensagem", .str e)]
      | .ok resp => MinerarEstilo.json_load_safely resp) :: MinerarEstilo.analisarGo eng (i + 1) rest

/-- `minerar_estilo.analisar_blocos`. -/
def analisar_blocos (corpus : String) (maxChars : Nat)
    (eng : Nat → String → Except String String) : List PyVal :=
  MinerarEstilo.analisarGo eng 0 (dividir_em_blocos corpus maxChars)

/-- `minerar_estilo.fundir_analises`: the parse result (or invocation
failure marker) is returned as is; provenance is added later by
`minerar_estilo.minerar_estilo`. -/
def fundir_analises (analises : List PyVal) (eng : Except String String) : PyVal :=
  match eng with
  | .error e => .dict [("_erro_fusao", .bool true), ("_mensagem", .str e)]
  | .ok resp => MinerarEstilo.json_load_safely resp

end MinerarEstilo

example : strip_code_fences "```json\n\x7b\"a\": 1\x7d\n```" = "\x7b\"a\": 1\x7d" := rfl
example : json_load_safely "```json\n\x7b\"a\": 1\x7d\n```" = .dict [("a", .num "1")] := rfl
example : json_load_safely "" =
  .dict [("_erro_parse_json", .bool true), ("_amostra_resposta", .str "")] := rfl
example : json_load_safely "```\n[1]\n```" = .list [.num "1"] := rfl

example : dividir_em_blocos "a\nb\nc" 1 = ["a", "b", "c"] := by decide
example : dividir_em_blocos "aa\n\nbb" 1 = ["aa", "", "bb"] := by decide
example : dividir_em_blocos "a\na\na" 2 = ["a\na", "a"] := by decide
example : dividir_em_blocos "" 5 = [] := by decide
example : joinNl (dividir_em_blocos "a\n" 1) = "a" := by decide

/-! Lemmas about the segmenter. -/

lemma nlJoin_cons_ne (b : List Char) (bs : List (List Char)) (h : bs ≠ []) :
    nlJoin (b :: bs) = b ++ '\n' :: nlJoin bs := by
  cases bs with
  | nil => exact absurd rfl h
  | cons x xs => rfl

lemma nlJoin_append (A B : List (List Char)) (hA : A ≠ []) (hB : B ≠ []) :
    nlJoin (A ++ B) = nlJoin A ++ '\n' :: nlJoin B := by
  induction A with
  | nil => exact absurd rfl hA
  | cons a A ih =>
    cases A with
    | nil => simp [nlJoin_cons_ne a B hB, nlJoin]
    | cons a2 A2 =>
      rw [List.cons_append, nlJoin_cons_ne _ _ (by simp),
        nlJoin_cons_ne a (a2 :: A2) (by simp), ih (by simp)]
      simp

lemma dividirLoop_ne_nil (m : Nat) (ls : List (List Char)) :
    ∀ atual t, atual ≠ [] → dividirLoop m ls atual t ≠ [] := by
  induction ls with
  | nil => intro atual t h; simp [dividirLoop, h]
  | cons ln rest ih =>
    intro atual t h
    simp only [dividirLoop]
    split
    · simp
    · exact ih _ _ (by simp)

lemma nlJoin_dividirLoop (m : Nat) (ls : List (List Char)) :
    ∀ atual t, nlJoin (dividirLoop m ls atual t) = nlJoin (atual ++ ls) := by
  induction ls with
  | nil => intro atual t; simp only [dividirLoop]; split <;> simp_all [nlJoin]
  | cons ln rest ih =>
    intro atual t
    simp only [dividirLoop]
    split
    · rename_i hc
      rw [nlJoin_cons_ne _ _ (dividirLoop_ne_nil m rest [ln] ln.length (by simp)), ih]
      exact (nlJoin_append atual (ln :: rest) hc.2 (by simp)).symm
    · rw [ih]; simp

lemma joinNl_dividir (texto : String) (m : Nat) :
    joinNl (dividir_em_blocos texto m) = String.mk (nlJoin (pySplitlines texto.data)) := by
  simp only [joinNl, dividir_em_blocos, List.map_map]
  have : (fun b => String.data b) ∘ (fun l => String.mk l) = id := by
    funext l; rfl
  rw [this, List.map_id, nlJoin_dividirLoop]
  rfl

lemma pySplitlinesAux_ne_nil :
    ∀ l cur, cur ≠ [] ∨ l ≠ [] → pySplitlinesAux false cur l ≠ [] := by
  intro l
  induction l with
  | nil =>
    intro cur h
    rcases h with h | h
    · simp [pySplitlinesAux, h]
    · exact absurd rfl h
  | cons c rest ih =>
    intro cur _
    simp only [pySplitlinesAux, Bool.false_and, Bool.false_eq_true, if_false]
    split
    · simp
    · exact ih _ (Or.inl (by simp))

lemma nlJoin_pySplitlinesAux :
    ∀ l cur, (∀ c ∈ l, isLineBoundary c = true → c = '\n') →
      l.getLast? ≠ some '\n' → nlJoin (pySplitlinesAux false cur l) = cur ++ l := by
  intro l
  induction l with
  | nil => intro cur _ _; by_cases h : cur = [] <;> simp [pySplitlinesAux, h, nlJoin]
  | cons c rest ih =>
    intro cur hball hlast
    have htail : ∀ d ∈ rest, isLineBoundary d = true → d = '\n' :=
      fun d hd => hball d (by simp [hd])
    have hlast2 : rest = [] ∨ rest.getLast? ≠ some '\n' := by
      rcases rest with _ | ⟨r, rs⟩
      · exact Or.inl rfl
      · exact Or.inr (by simpa using hlast)
    simp only [pySplitlinesAux, Bool.false_and, Bool.false_eq_true, if_false]
    by_cases hb : isLineBoundary c = true
    · have hcn : c = '\n' := hball c (by simp) hb
      have hrest : rest ≠ [] := by
        intro he
        subst he
        exact hlast (by simp [hcn])
      have hcr : (c == '\r') = false := by rw [hcn]; decide
      rw [if_pos hb, hcr,
        nlJoin_cons_ne _ _ (pySplitlinesAux_ne_nil rest [] (Or.inr hrest)),
        ih [] htail (hlast2.resolve_left hrest)]
      simp [hcn]
    · rw [if_neg hb, ih (cur ++ [c]) htail ?_]
      · simp
      · rcases hlast2 with h | h
        · simp [h]
        · exact h

lemma pySplitlinesAux_clean :
    ∀ l afterCR cur, (∀ c ∈ cur, isLineBoundary c = false) →
      ∀ x ∈ pySplitlinesAux afterCR cur l, ∀ c ∈ x, isLineBoundary c = false := by
  intro l
  induction l with
  | nil =>
    intro afterCR cur hc x hx
    simp only [pySplitlinesAux] at hx
    split at hx
    · simp at hx
    · simp only [List.mem_singleton] at hx
      subst hx
      exact hc
  | cons c rest ih =>
    intro afterCR cur hc x hx
    simp only [pySplitlinesAux] at hx
    split at hx
    · exact ih _ _ hc x hx
    · split at hx
      · rcases List.mem_cons.1 hx with hx | hx
        · subst hx; exact hc
        · exact ih _ _ (by simp) x hx
      · rename_i hb
        refine ih _ _ ?_ x hx
        intro d hd
        rcases List.mem_append.1 hd with hd | hd
        · exact hc d hd
        · simp at hd
          subst hd
          simpa using hb

/-- Sum of the line lengths of a buffered block. -/
def sumLen (A : List (List Char)) : Nat := (A.map List.length).sum

lemma nlJoin_length (A : List (List Char)) (h : A ≠ []) :
    (nlJoin A).length = sumLen A + (A.length - 1) := by
  induction A with
  | nil => exact absurd rfl h
  | cons a A ih =>
    cases A with
    | nil => simp [nlJoin, sumLen]
    | cons a2 A2 =>
      rw [nlJoin_cons_ne _ _ (by simp)]
      simp only [List.length_append, List.length_cons, ih (by simp)]
      simp [sumLen]
      omega

lemma nlJoin_count (A : List (List Char)) (h : A ≠ []) (hA : ∀ x ∈ A, ('\n' : Char) ∉ x) :
    (nlJoin A).count '\n' = A.length - 1 := by
  induction A with
  | nil => exact absurd rfl h
  | cons a A ih =>
    have ha0 : a.count '\n' = 0 := List.count_eq_zero.2 (hA a (by simp))
    cases A with
    | nil => simpa [nlJoin] using ha0
    | cons a2 A2 =>
      rw [nlJoin_cons_ne _ _ (by simp)]
      rw [List.count_append, List.count_cons_self, ha0,
        ih (by simp) (fun x hx => hA x (by simp [hx]))]
      simp

lemma dividirLoop_blocks (m : Nat) (ls : List (List Char)) :
    ∀ atual b,
      (atual = [] ∨ sumLen atual ≤ m ∨ atual.length = 1) →
      b ∈ dividirLoop m ls atual (sumLen atual) →
      ∃ A, A ≠ [] ∧ b = nlJoin A ∧ (sumLen A ≤ m ∨ A.length = 1) ∧
        (∀ x ∈ A, x ∈ atual ∨ x ∈ ls) := by
  induction ls with
  | nil =>
    intro atual b hinv hb
    simp only [dividirLoop] at hb
    split at hb
    · simp at hb
    · rename_i hne
      simp only [List.mem_singleton] at hb
      subst hb
      refine ⟨atual, hne, rfl, ?_, fun x hx => Or.inl hx⟩
      rcases hinv with h | h
      · exact absurd h hne
      · exact h
  | cons ln rest ih =>
    intro atual b hinv hb
    simp only [dividirLoop] at hb
    split at hb
    · rename_i hc
      rcases List.mem_cons.1 hb with hb | hb
      · subst hb
        refine ⟨atual, hc.2, rfl, ?_, fun x hx => Or.inl hx⟩
        rcases hinv with h | h
        · exact absurd h hc.2
        · exact h
      · have hb2 : b ∈ dividirLoop m rest [ln] (sumLen [ln]) := by
          simpa [sumLen] using hb
        obtain ⟨A, hAne, hbA, hbound, hmem⟩ := ih [ln] b (by simp [sumLen]) hb2
        refine ⟨A, hAne, hbA, hbound, ?_⟩
        intro x hx
        rcases hmem x hx with hx1 | hx1
        · simp at hx1; subst hx1; exact Or.inr (by simp)
        · exact Or.inr (by simp [hx1])
    · rename_i hc
      have hsum : sumLen (atual ++ [ln]) = sumLen atual + ln.length := by
        simp [sumLen]
      have hinv2 : (atual ++ [ln] = [] ∨ sumLen (atual ++ [ln]) ≤ m ∨ (atual ++ [ln]).length = 1) := by
        rcases List.eq_nil_or_concat atual with h | _
        · subst h
          exact Or.inr (Or.inr (by simp))
        · have hne : atual ≠ [] := by
            rename_i hcc
            obtain ⟨_, _, rfl⟩ := hcc
            simp
          have : ¬ sumLen atual + ln.length > m := fun hgt => hc ⟨hgt, hne⟩
          exact Or.inr (Or.inl (by omega))
      have hb2 : b ∈ dividirLoop m rest (atual ++ [ln]) (sumLen (atual ++ [ln])) := by
        rw [hsum]; exact hb
      obtain ⟨A, hAne, hbA, hbound, hmem⟩ := ih (atual ++ [ln]) b hinv2 hb2
      refine ⟨A, hAne, hbA, hbound, ?_⟩
      intro x hx
      rcases hmem x hx with hx1 | hx1
      · rcases List.mem_append.1 hx1 with h | h
        · exact Or.inl h
        · simp at h; subst h; exact Or.inr (by simp)
      · exact Or.inr (by simp [hx1])

/-! Theorems about claims C3, C4, C9, C8 (Segmenter). -/

/-- C3 counterexample: for the input `"a\n"` (any positive budget, here
1), the trailing newline is dropped by the line split, so the newline-join
of the blocks does not reconstruct the input. -/
theorem spec_C3_counterexample :
    joinNl (dividir_em_blocos "a\n" 1) ≠ "a\n" := by decide

/-- C3 (amended): for every input text whose line terminators are all
`"\n"` and which does not end in a line terminator, joining the blocks
produced by the Segmenter with a newline separator reconstructs the
original text exactly, for every `max_chars`. -/
theorem spec_C3 (texto : String) (maxChars : Nat)
    (hb : ∀ c ∈ texto.data, isLineBoundary c = true → c = '\n')
    (hl : texto.data.getLast? ≠ some '\n') :
    joinNl (dividir_em_blocos texto maxChars) = texto := by
  rw [joinNl_dividir, pySplitlines, nlJoin_pySplitlinesAux texto.data [] hb hl]
  cases texto
  rfl

/-- Witness for C3 at a concrete input. -/
theorem spec_C3_witness : joinNl (dividir_em_blocos "x\ny" 3) = "x\ny" :=
  spec_C3 "x\ny" 3 (by decide) (by decide)

/-- C4 counterexample: with input `"a\na\na"` and `max_chars = 2`, the
block `"a\na"` is produced, has character length 3 > 2, and is not a
single line (it spans two lines and contains a newline): the running
tally of the code does not count the re-inserted newlines. -/
theorem spec_C4_counterexample :
    "a\na" ∈ dividir_em_blocos "a\na\na" 2 ∧ ¬ ("a\na".length ≤ 2) ∧
    "a\na".data.count '\n' ≠ 0 ∧ (pySplitlines "a\na".data).length ≠ 1 := by decide

/-- C4 (amended): every block produced by the Segmenter either has
character length at most `max_chars` plus the number of newlines
re-inserted between its lines (equivalently, the sum of its line lengths
is at most `max_chars`), or consists of a single line (contains no
newline). -/
theorem spec_C4 (texto : String) (maxChars : Nat) :
    ∀ b ∈ dividir_em_blocos texto maxChars,
      b.length ≤ maxChars + b.data.count '\n' ∨ b.data.count '\n' = 0 := by
  intro b hb
  simp only [dividir_em_blocos, List.mem_map] at hb
  obtain ⟨bl, hbl, rfl⟩ := hb
  obtain ⟨A, hAne, rfl, hbound, hmem⟩ :=
    dividirLoop_blocks maxChars (pySplitlines texto.data) [] bl (Or.inl rfl) hbl
  have hxin : ∀ x ∈ A, x ∈ pySplitlines texto.data := fun x hx =>
    (hmem x hx).resolve_left (fun h => by simp at h)
  have hclean : ∀ x ∈ A, ('\n' : Char) ∉ x := by
    intro x hx hn
    have hfalse := pySplitlinesAux_clean texto.data false [] (by simp) x (hxin x hx) '\n' hn
    exact absurd hfalse (by decide)
  have hlen := nlJoin_length A hAne
  have hcnt := nlJoin_count A hAne hclean
  rcases hbound with h | h
  · left
    show (nlJoin A).length ≤ maxChars + (nlJoin A).count '\n'
    rw [hlen, hcnt]
    omega
  · right
    show (nlJoin A).count '\n' = 0
    rw [hcnt, h]

/-- Witness for C4 at a concrete input. -/
theorem spec_C4_witness :
    "ab".length ≤ 5 + "ab".data.count '\n' ∨ "ab".data.count '\n' = 0 :=
  spec_C4 "ab" 5 "ab" (by decide)

/-- C9 counterexample: the non-empty input `"aa\n\nbb"` with
`max_chars = 1` produces the empty string as its second block (the empty
middle line is flushed alone when the next line overflows). -/
theorem spec_C9_counterexample :
    ("aa\n\nbb" : String) ≠ "" ∧ (dividir_em_blocos "aa\n\nbb" 1).get? 1 = some "" := by
  decide

/-- C9 (amended): an empty input yields zero blocks, and for every input
none of whose lines is empty, every produced block is a non-empty string;
an input containing an empty line can however yield an empty block. -/
theorem spec_C9 (texto : String) (maxChars : Nat)
    (hne : ∀ ln ∈ pySplitlines texto.data, ln ≠ []) :
    (texto = "" → dividir_em_blocos texto maxChars = []) ∧
    ∀ b ∈ dividir_em_blocos texto maxChars, b ≠ "" := by
  constructor
  · intro h; subst h; rfl
  · intro b hb
    simp only [dividir_em_blocos, List.mem_map] at hb
    obtain ⟨bl, hbl, rfl⟩ := hb
    obtain ⟨A, hAne, rfl, _, hmem⟩ :=
      dividirLoop_blocks maxChars (pySplitlines texto.data) [] bl (Or.inl rfl) hbl
    have hAlines : ∀ x ∈ A, x ≠ [] := fun x hx =>
      hne x ((hmem x hx).resolve_left (fun h => by simp at h))
    intro he
    have hdata : nlJoin A = [] := congrArg String.data he
    rcases A with _ | ⟨a, A2⟩
    · exact hAne rfl
    · have ha : a ≠ [] := hAlines a (by simp)
      cases A2 with
      | nil => exact ha hdata
      | cons a2 A3 =>
        rw [nlJoin_cons_ne _ _ (by simp)] at hdata
        simp at hdata

/-- Witness for C9 at a concrete input. -/
theorem spec_C9_witness :
    (("x\ny" : String) = "" → dividir_em_blocos "x\ny" 1 = []) ∧
    ∀ b ∈ dividir_em_blocos "x\ny" 1, b ≠ "" :=
  spec_C9 "x\ny" 1 (by decide)

lemma pySplitlinesAux_append (a : List Char) (ha : ∀ c ∈ a, isLineBoundary c = false) :
    ∀ cur l, pySplitlinesAux false cur (a ++ l) = pySplitlinesAux false (cur ++ a) l := by
  induction a with
  | nil => intro cur l; simp
  | cons c a2 ih =>
    intro cur l
    have hc : isLineBoundary c = false := ha c (by simp)
    simp only [List.cons_append, pySplitlinesAux, Bool.false_and, Bool.false_eq_true,
      if_false, hc, List.append_eq]
    rw [ih (fun d hd => ha d (by simp [hd]))]
    simp

lemma pySplitlines_threeLines (l1 l2 l3 : List Char)
    (h1 : ∀ c ∈ l1, isLineBoundary c = false) (h2 : ∀ c ∈ l2, isLineBoundary c = false)
    (h3 : ∀ c ∈ l3, isLineBoundary c = false) (h3ne : l3 ≠ []) :
    pySplitlines (l1 ++ '\n' :: (l2 ++ '\n' :: l3)) = [l1, l2, l3] := by
  have hb : isLineBoundary '\n' = true := by decide
  have hcr : (('\n' : Char) == '\r') = false := by decide
  have hone : pySplitlinesAux false [] l3 = [l3] := by
    have := pySplitlinesAux_append l3 h3 [] []
    simp only [List.append_nil, List.nil_append] at this
    rw [this]
    simp [pySplitlinesAux, h3ne]
  rw [pySplitlines, pySplitlinesAux_append l1 h1]
  simp only [List.nil_append, pySplitlinesAux, Bool.false_and, Bool.false_eq_true,
    if_false, hb, if_true, hcr]
  rw [pySplitlinesAux_append l2 h2]
  simp only [List.nil_append, pySplitlinesAux, Bool.false_and, Bool.false_eq_true,
    if_false, hb, if_true, hcr, hone]

lemma dividirLoop_three (m : Nat) (l1 l2 l3 : List Char)
    (c1 : l1.length ≤ m) (c2 : l1.length + l2.length > m) (c3 : l2.length + l3.length > m) :
    dividirLoop m [l1, l2, l3] [] 0 = [l1, l2, l3] := by
  simp [dividirLoop, nlJoin, c2, c3, Nat.not_lt.2 c1]

/-- C8: for a corpus of exactly three lines of 2000 characters each and
`max_chars = 3000`, the Segmenter produces exactly three blocks, each one
of the three lines, in order. -/
theorem spec_C8 (l1 l2 l3 : List Char)
    (h1c : ∀ c ∈ l1, isLineBoundary c = false) (h2c : ∀ c ∈ l2, isLineBoundary c = false)
    (h3c : ∀ c ∈ l3, isLineBoundary c = false)
    (h1 : l1.length = 2000) (h2 : l2.length = 2000) (h3 : l3.length = 2000) :
    dividir_em_blocos (String.mk (l1 ++ '\n' :: (l2 ++ '\n' :: l3))) 3000 =
      [String.mk l1, String.mk l2, String.mk l3] := by
  have h3ne : l3 ≠ [] := by
    intro h
    rw [h] at h3
    simp at h3
  rw [dividir_em_blocos]
  have hd : (String.mk (l1 ++ '\n' :: (l2 ++ '\n' :: l3))).data
      = l1 ++ '\n' :: (l2 ++ '\n' :: l3) := rfl
  rw [hd, pySplitlines_threeLines l1 l2 l3 h1c h2c h3c h3ne,
    dividirLoop_three 3000 l1 l2 l3 (by omega) (by omega) (by omega)]
  rfl

/-- Witness for C8 at a concrete corpus of three 2000-character lines. -/
theorem spec_C8_witness :
    dividir_em_blocos (String.mk (List.replicate 2000 'a' ++ '\n' ::
      (List.replicate 2000 'b' ++ '\n' :: List.replicate 2000 'c'))) 3000 =
      [String.mk (List.replicate 2000 'a'), String.mk (List.replicate 2000 'b'),
       String.mk (List.replicate 2000 'c')] :=
  spec_C8 _ _ _
    (by intro c hc; rw [List.eq_of_mem_replicate hc]; decide)
    (by intro c hc; rw [List.eq_of_mem_replicate hc]; decide)
    (by intro c hc; rw [List.eq_of_mem_replicate hc]; decide)
    (by rw [List.length_replicate]) (by rw [List.length_replicate])
    (by rw [List.length_replicate])

/-! Lemmas about dict operations and theorems for C1, C2, C10. -/

lemma dlookup_append_left (es es2 : List (String × PyVal)) (k : String) (v : PyVal)
    (h : dlookup es k = some v) : dlookup (es ++ es2) k = some v := by
  induction es with
  | nil => simp [dlookup] at h
  | cons e rest ih =>
    rcases e with ⟨k0, v0⟩
    simp only [dlookup, List.cons_append] at h ⊢
    by_cases hk : k0 = k
    · rw [if_pos hk] at h ⊢
      exact h
    · rw [if_neg hk] at h ⊢
      exact ih h

lemma dlookup_append_right (es es2 : List (String × PyVal)) (k : String)
    (h : dlookup es k = none) : dlookup (es ++ es2) k = dlookup es2 k := by
  induction es with
  | nil => simp
  | cons e rest ih =>
    rcases e with ⟨k0, v0⟩
    simp only [dlookup, List.cons_append] at h ⊢
    by_cases hk : k0 = k
    · rw [if_pos hk] at h
      simp at h
    · rw [if_neg hk] at h ⊢
      exact ih h

lemma dhasKey_dinsert_self (es : List (String × PyVal)) (k : String) (v : PyVal) :
    dhasKey (dinsert es k v) k = true := by
  induction es with
  | nil => simp [dinsert, dhasKey, dlookup]
  | cons e rest ih =>
    simp only [dinsert]
    split
    · rename_i h
      simp [dhasKey, dlookup, h]
    · rename_i h
      simpa [dhasKey, dlookup, h] using ih

lemma dhasKey_dinsert_mono (es : List (String × PyVal)) (k k2 : String) (v : PyVal)
    (h : dhasKey es k2 = true) : dhasKey (dinsert es k v) k2 = true := by
  induction es with
  | nil => simp [dhasKey, dlookup] at h
  | cons e rest ih =>
    simp only [dhasKey, dlookup] at h
    simp only [dinsert]
    split
    · rename_i hk
      subst hk
      by_cases h2 : e.1 = k2
      · simp [dhasKey, dlookup, h2]
      · simp only [dhasKey, dlookup]
        simp [h2] at h ⊢
        exact h
    · by_cases h2 : e.1 = k2
      · simp [dhasKey, dlookup, h2]
      · simp [h2] at h
        simpa [dhasKey, dlookup, h2] using ih h

lemma dhasKey_dsetdefault_self (es : List (String × PyVal)) (k : String) (v : PyVal) :
    dhasKey (dsetdefault es k v) k = true := by
  simp only [dsetdefault]
  split
  · rename_i h
    simpa [dhasKey] using h
  · rename_i h
    have hnone : dlookup es k = none := by
      cases hl : dlookup es k with
      | none => rfl
      | some w => simp [hl] at h
    simp [dhasKey, dlookup_append_right es [(k, v)] k hnone, dlookup]

lemma dhasKey_dsetdefault_mono (es : List (String × PyVal)) (k k2 : String) (v : PyVal)
    (h : dhasKey es k2 = true) : dhasKey (dsetdefault es k v) k2 = true := by
  simp only [dsetdefault]
  split
  · exact h
  · simp only [dhasKey] at h ⊢
    cases hl : dlookup es k2 with
    | none => simp [hl] at h
    | some w => simp [dlookup_append_left es [(k, v)] k2 w hl]

/-- C1: for every behaviour of the external fusion call (exception,
unparseable payload, non-record payload, or record payload) and every
timestamp, the Aggregator returns a record carrying the three provenance
fields `versao`, `gerado_em` and `_fonte`. -/
theorem spec_C1 (analises : List PyVal) (eng : Except String String) (now : String) :
    ∃ es, fundir_analises analises eng now = .dict es ∧
      dhasKey es "versao" = true ∧ dhasKey es "gerado_em" = true ∧
      dhasKey es "_fonte" = true := by
  have hstamp : ∀ es0 : List (String × PyVal),
      dhasKey (dsetdefault (dinsert (dsetdefault es0 "versao" (.str "2.0-blocos"))
          "gerado_em" (.str now)) "_fonte" (.str "fusão_de_blocos")) "versao" = true ∧
      dhasKey (dsetdefault (dinsert (dsetdefault es0 "versao" (.str "2.0-blocos"))
          "gerado_em" (.str now)) "_fonte" (.str "fusão_de_blocos")) "gerado_em" = true ∧
      dhasKey (dsetdefault (dinsert (dsetdefault es0 "versao" (.str "2.0-blocos"))
          "gerado_em" (.str now)) "_fonte" (.str "fusão_de_blocos")) "_fonte" = true := by
    intro es0
    refine ⟨?_, ?_, ?_⟩
    · exact dhasKey_dsetdefault_mono _ _ _ _
        (dhasKey_dinsert_mono _ _ _ _ (dhasKey_dsetdefault_self es0 _ _))
    · exact dhasKey_dsetdefault_mono _ _ _ _ (dhasKey_dinsert_self _ _ _)
    · exact dhasKey_dsetdefault_self _ _ _
  have fallbackKeys : ∀ x : PyVal, ∃ es,
      (PyVal.dict [("_erro_formato", .bool true), ("_amostra", .str (pyTake (pyRepr x) 800)),
        ("versao", .str "2.0-blocos"), ("gerado_em", .str now),
        ("_fonte", .str "fusão_de_blocos")]) = PyVal.dict es ∧
      dhasKey es "versao" = true ∧ dhasKey es "gerado_em" = true ∧
      dhasKey es "_fonte" = true :=
    fun x => ⟨_, rfl, rfl, rfl, rfl⟩
  cases eng with
  | error e =>
    refine ⟨_, rfl, ?_⟩
    exact hstamp [("_erro_fusao", .bool true), ("_mensagem", .str e)]
  | ok resp =>
    cases hv : json_load_safely resp with
    | dict es0 =>
      refine ⟨_, ?_, hstamp es0⟩
      simp only [fundir_analises, hv]
    | null => simpa only [fundir_analises, hv] using fallbackKeys .null
    | bool b => simpa only [fundir_analises, hv] using fallbackKeys (.bool b)
    | num lex => simpa only [fundir_analises, hv] using fallbackKeys (.num lex)
    | str s => simpa only [fundir_analises, hv] using fallbackKeys (.str s)
    | list xs => simpa only [fundir_analises, hv] using fallbackKeys (.list xs)

lemma analisarGo_length (eng : Nat → String → Except String String) :
    ∀ bs i, (analisarGo eng i bs).length = bs.length := by
  intro bs
  induction bs with
  | nil => intro i; rfl
  | cons b rest ih => intro i; simp [analisarGo, ih]

lemma analisarGo_get? (eng : Nat → String → Except String String) :
    ∀ bs i j, (analisarGo eng i bs).get? j = (bs.get? j).map (fun b =>
      match eng (i + j) b with
      | .error e => .dict [("_erro_chamada_ia", .bool true), ("_mensagem", .str e)]
      | .ok resp => json_load_safely resp) := by
  intro bs
  induction bs with
  | nil => intro i j; rfl
  | cons b rest ih =>
    intro i j
    cases j with
    | zero => simp [analisarGo]
    | succ j2 =>
      simp only [analisarGo, List.get?_cons_succ]
      rw [ih (i + 1) j2]
      have : i + 1 + j2 = i + (j2 + 1) := by omega
      rw [this]

/-- C2: the BlockAnalyzer returns exactly one AnalysisResult per block, in
block order; each entry depends only on its own invocation outcome — an
invocation that raises yields the invocation-failure marker carrying the
error description, and an invocation that returns a payload yields the
parse of that payload, independently of every other block. -/
theorem spec_C2 (corpus : String) (maxChars : Nat)
    (eng : Nat → String → Except String String) :
    (analisar_por_blocos corpus maxChars eng).length
        = (dividir_em_blocos corpus maxChars).length ∧
    ∀ i b, (dividir_em_blocos corpus maxChars).get? i = some b →
      (∀ e, eng i b = .error e →
        (analisar_por_blocos corpus maxChars eng).get? i =
          some (.dict [("_erro_chamada_ia", .bool true), ("_mensagem", .str e)])) ∧
      (∀ resp, eng i b = .ok resp →
        (analisar_por_blocos corpus maxChars eng).get? i = some (json_load_safely resp)) := by
  constructor
  · exact analisarGo_length eng (dividir_em_blocos corpus maxChars) 0
  · intro i b hib
    have hg := analisarGo_get? eng (dividir_em_blocos corpus maxChars) 0 i
    rw [hib] at hg
    simp only [Nat.zero_add] at hg
    constructor
    · intro e he
      rw [analisar_por_blocos, hg, Option.map_some']
      simp [he]
    · intro resp hr
      rw [analisar_por_blocos, hg, Option.map_some']
      simp [hr]

/-- Engine behaviour for the C2 witness: the call for block index 1
raises, every other call returns an empty record payload. -/
def engC2 : Nat → String → Except String String :=
  fun i _ => if i = 1 then .error "boom" else .ok "\x7b\x7d"

/-- Witness for C2: three blocks, the second invocation raises. -/
theorem spec_C2_witness :
    (analisar_por_blocos "a\nb\nc" 1 engC2).get? 1 =
      some (.dict [("_erro_chamada_ia", .bool true), ("_mensagem", .str "boom")]) :=
  (((spec_C2 "a\nb\nc" 1 engC2).2 1 "b" (by decide)).1 "boom" rfl)

/-- C10: when an invocation returns a payload that decodes as a
non-record value, the BlockAnalyzer records that decoded value unchanged
as the AnalysisResult for that block, with no failure flag attached. -/
theorem spec_C10 (corpus : String) (maxChars : Nat)
    (eng : Nat → String → Except String String) (i : Nat) (b resp : String) (v : PyVal)
    (hb : (dividir_em_blocos corpus maxChars).get? i = some b)
    (he : eng i b = .ok resp)
    (hp : json_loads (strip_code_fences resp) = .ok v)
    (hnd : isDict v = false) :
    (analisar_por_blocos corpus maxChars eng).get? i = some v := by
  have hg := analisarGo_get? eng (dividir_em_blocos corpus maxChars) 0 i
  rw [hb] at hg
  simp only [Nat.zero_add] at hg
  rw [analisar_por_blocos, hg, Option.map_some']
  simp [he, json_load_safely, hp]

/-- Engine behaviour for the C10 witness: the single invocation returns a
JSON array payload. -/
def engC10 : Nat → String → Except String String :=
  fun _ _ => .ok "[1, 2]"

/-- Witness for C10: the decoded array is recorded unchanged. -/
theorem spec_C10_witness :
    (analisar_por_blocos "x" 6000 engC10).get? 0 = some (.list [.num "1", .num "2"]) :=
  spec_C10 "x" 6000 engC10 0 "x" "[1, 2]" (.list [.num "1", .num "2"]) rfl rfl rfl rfl

/-! Theorems for C6 (truncation lengths) and C7 (orchestrator). -/

lemma minerarAnalisarGo_get? (eng : Nat → String → Except String String) :
    ∀ bs i j, (MinerarEstilo.analisarGo eng i bs).get? j = (bs.get? j).map (fun b =>
      match eng (i + j) b with
      | .error e => .dict [("_erro_chamada_ia", .bool true), ("_mensagem", .str e)]
      | .ok resp => MinerarEstilo.json_load_safely resp) := by
  intro bs
  induction bs with
  | nil => intro i j; rfl
  | cons b rest ih =>
    intro i j
    cases j with
    | zero => simp [MinerarEstilo.analisarGo]
    | succ j2 =>
      simp only [MinerarEstilo.analisarGo, List.get?_cons_succ]
      rw [ih (i + 1) j2]
      have : i + 1 + j2 = i + (j2 + 1) := by omega
      rw [this]

/-- Engine behaviour for the C6 counterexample: the single per-block call
returns a 900-character undecodable payload. -/
def engC6 : Nat → String → Except String String :=
  fun _ _ => .ok (String.mk (List.replicate 900 'z'))

set_option maxRecDepth 40000 in
/-- C6 counterexample: at the per-block call site of the single-file
pipeline, a 900-character undecodable payload is kept whole in the
failure-marker sample (the cap there is 1000, not the 800 the claim
states, so the sample is not truncated to 800 characters). -/
theorem spec_C6_counterexample :
    (analisar_por_blocos "x" 6000 engC6).get? 0 =
      some (.dict [("_erro_parse_json", .bool true),
        ("_amostra_resposta", .str (String.mk (List.replicate 900 'z')))]) ∧
    (String.mk (List.replicate 900 'z')).length = 900 ∧ ¬ (900 ≤ 800) := by
  refine ⟨rfl, ?_, by omega⟩
  show (List.replicate 900 'z').length = 900
  rw [List.length_replicate]

/-- C6 (amended): on decode failure both implementations return the
failure marker with the boolean flag and a truncated sample of the
original pre-strip payload, but the truncation length is per
implementation, not per call site: 1000 characters at both the per-block
and fusion call sites of the single-file pipeline
(`estilo_pipeline._json_load_safely`), and 800 characters at both call
sites of the modular miner (`minerar_estilo._json_load_safely`). -/
theorem spec_C6 :
    (∀ payload e, json_loads (strip_code_fences payload) = .error e →
      json_load_safely payload =
        .dict [("_erro_parse_json", .bool true),
               ("_amostra_resposta", .str (pyTake payload 1000))]) ∧
    (∀ payload e, json_loads payload = .error e →
      MinerarEstilo.json_load_safely payload =
        .dict [("_erro_parse_json", .bool true),
               ("_amostra_resposta", .str (pyTake payload 800))]) ∧
    (∀ corpus maxChars eng i b resp e,
      (dividir_em_blocos corpus maxChars).get? i = some b →
      eng i b = .ok resp →
      json_loads (strip_code_fences resp) = .error e →
      (analisar_por_blocos corpus maxChars eng).get? i =
        some (.dict [("_erro_parse_json", .bool true),
                     ("_amostra_resposta", .str (pyTake resp 1000))])) ∧
    (∀ corpus maxChars eng i b resp e,
      (dividir_em_blocos corpus maxChars).get? i = some b →
      eng i b = .ok resp →
      json_loads resp = .error e →
      (MinerarEstilo.analisar_blocos corpus maxChars eng).get? i =
        some (.dict [("_erro_parse_json", .bool true),
                     ("_amostra_resposta", .str (pyTake resp 800))])) := by
  have h1 : ∀ payload e, json_loads (strip_code_fences payload) = .error e →
      json_load_safely payload =
        .dict [("_erro_parse_json", .bool true),
               ("_amostra_resposta", .str (pyTake payload 1000))] := by
    intro payload e he
    rw [json_load_safely, he]
  have h2 : ∀ payload e, json_loads payload = .error e →
      MinerarEstilo.json_load_safely payload =
        .dict [("_erro_parse_json", .bool true),
               ("_amostra_resposta", .str (pyTake payload 800))] := by
    intro payload e he
    rw [MinerarEstilo.json_load_safely, he]
  refine ⟨h1, h2, ?_, ?_⟩
  · intro corpus maxChars eng i b resp e hb heng he
    have hg := analisarGo_get? eng (dividir_em_blocos corpus maxChars) 0 i
    rw [hb] at hg
    simp only [Nat.zero_add] at hg
    rw [analisar_por_blocos, hg, Option.map_some']
    simp [heng, h1 resp e he]
  · intro corpus maxChars eng i b resp e hb heng he
    have hg := minerarAnalisarGo_get? eng (dividir_em_blocos corpus maxChars) 0 i
    rw [hb] at hg
    simp only [Nat.zero_add] at hg
    rw [MinerarEstilo.analisar_blocos, hg, Option.map_some']
    simp [heng, h2 resp e he]

/-- Witness for C6 at a concrete undecodable payload. -/
theorem spec_C6_witness :
    json_load_safely "oops" =
      .dict [("_erro_parse_json", .bool true),
             ("_amostra_resposta", .str (pyTake "oops" 1000))] :=
  spec_C6.1 "oops" "Expecting value" rfl

/-- Engine behaviour for the C7 witness: every call succeeds with an
empty-record payload. -/
def engC7 : Nat → String → Except String String :=
  fun _ _ => .ok "\x7b\x7d"

/-- C7: the run fails exactly when the corpus — source documents read in
lexicographic name order, joined with a blank line, surrounding
whitespace stripped — is empty, with the empty-corpus diagnostic, and it
does so for every behaviour of the external calls (so before any external
call can influence the run); for a non-empty corpus the run completes and
returns a persisted stylebook for every behaviour of the external calls. -/
theorem spec_C7 (files : List (String × String)) (cleanFirst : Bool)
    (limpar : String → String) (limpasDir : String) (maxChars : Nat)
    (engBloco : Nat → String → Except String String) (engFusao : Except String String)
    (now : String) :
    ((∃ e, rodar files cleanFirst limpar limpasDir maxChars engBloco engFusao now = .error e) ↔
      corpus_of files cleanFirst limpar = "") ∧
    (corpus_of files cleanFirst limpar = "" →
      rodar files cleanFirst limpar limpasDir maxChars engBloco engFusao now =
        .error (emptyCorpusMsg limpasDir)) ∧
    (corpus_of files cleanFirst limpar ≠ "" →
      ∃ stylebook,
        rodar files cleanFirst limpar limpasDir maxChars engBloco engFusao now =
          .ok stylebook) := by
  by_cases hc : corpus_of files cleanFirst limpar = ""
  · have hrun : rodar files cleanFirst limpar limpasDir maxChars engBloco engFusao now =
        .error (emptyCorpusMsg limpasDir) := by
      rw [rodar, carregar_corpus, if_pos hc]
    exact ⟨⟨fun _ => hc, fun _ => ⟨_, hrun⟩⟩, fun _ => hrun, fun h => absurd hc h⟩
  · have hrun : rodar files cleanFirst limpar limpasDir maxChars engBloco engFusao now =
        .ok (fundir_analises
          (analisar_por_blocos (corpus_of files cleanFirst limpar) maxChars engBloco)
          engFusao now) := by
      rw [rodar, carregar_corpus, if_neg hc]
    refine ⟨⟨?_, fun h => absurd h hc⟩, fun h => absurd h hc, fun _ => ⟨_, hrun⟩⟩
    rintro ⟨e, he⟩
    rw [hrun] at he
    exact absurd he (by simp)

/-- Witness for C7: the empty directory aborts with the diagnostic, one
non-empty document completes. -/
theorem spec_C7_witness :
    rodar [] false id "dir" 6000 engC7 (.ok "x") "t" = .error (emptyCorpusMsg "dir") ∧
    ∃ stylebook, rodar [("a.txt", "hello")] false id "dir" 6000 engC7 (.ok "x") "t" =
      .ok stylebook :=
  ⟨(spec_C7 [] false id "dir" 6000 engC7 (.ok "x") "t").2.1 rfl,
   (spec_C7 [("a.txt", "hello")] false id "dir" 6000 engC7 (.ok "x") "t").2.2 (by decide)⟩

/-! Lemmas for C5: fence stripping and parser safety. -/

lemma dropWhile_ne_nil_of_mem {p : Char → Bool} {l : List Char} {x : Char}
    (hx : x ∈ l) (hp : p x = false) : l.dropWhile p ≠ [] := by
  induction l with
  | nil => simp at hx
  | cons a t ih =>
    rw [List.dropWhile_cons]
    by_cases ha : p a = true
    · rw [if_pos ha]
      rcases List.mem_cons.1 hx with h | h
      · subst h
        rw [hp] at ha
        exact absurd ha (by simp)
      · exact ih h
    · simp [ha]

lemma dropWhile_head_false {p : Char → Bool} {l : List Char} {d : Char} {r : List Char}
    (h : l.dropWhile p = d :: r) : p d = false ∧ d ∈ l := by
  induction l with
  | nil => simp at h
  | cons a t ih =>
    rw [List.dropWhile_cons] at h
    by_cases ha : p a = true
    · rw [if_pos ha] at h
      obtain ⟨h1, h2⟩ := ih h
      exact ⟨h1, by simp [h2]⟩
    · rw [if_neg ha] at h
      obtain ⟨rfl, -⟩ := List.cons.inj h
      exact ⟨by simpa using ha, by simp⟩

lemma dropWhile_append_of_ne_nil {p : Char → Bool} {l l2 : List Char}
    (h : l.dropWhile p ≠ []) : (l ++ l2).dropWhile p = l.dropWhile p ++ l2 := by
  induction l with
  | nil => exact absurd rfl h
  | cons a t ih =>
    by_cases ha : p a = true
    · rw [List.dropWhile_cons, if_pos ha] at h
      rw [List.cons_append, List.dropWhile_cons, if_pos ha, List.dropWhile_cons, if_pos ha]
      exact ih h
    · simp [List.dropWhile_cons, ha]

lemma matchOpenFence_none_of_head {c : Char} {l : List Char} (h : c ≠ '\x60') :
    matchOpenFence (c :: l) = none := by
  rcases l with _ | ⟨b, l2⟩
  · rfl
  · rcases l2 with _ | ⟨d, l3⟩
    · rfl
    · simp [matchOpenFence, h]

lemma matchCloseFence_none_of {l : List Char} {d : Char} {r : List Char}
    (hd : l.dropWhile pyIsSpace = d :: r) (hne : d ≠ '\x60') :
    matchCloseFence l = none := by
  simp only [matchCloseFence, hd]
  rcases r with _ | ⟨e, r2⟩
  · rfl
  · rcases r2 with _ | ⟨f, r3⟩
    · rfl
    · simp [hne]

lemma subFencesAux_step_emit (fuel : Nat) (als : Bool) (c : Char) (rest : List Char)
    (ho : matchOpenFence (c :: rest) = none) (hc : matchCloseFence (c :: rest) = none) :
    subFencesAux (fuel + 1) als (c :: rest) = c :: subFencesAux fuel (c == '\n') rest := by
  cases als <;>
    simp only [subFencesAux, subFencesGo, ho, hc, Bool.false_eq_true, if_false, if_true]

lemma subFencesAux_step_open (fuel : Nat) (c : Char) (rest : List Char) (n : Nat)
    (ho : matchOpenFence (c :: rest) = some n) :
    subFencesAux (fuel + 1) true (c :: rest) =
      subFencesAux fuel (((c :: rest).take n).getLast? == some '\n') ((c :: rest).drop n) := by
  simp only [subFencesAux, subFencesGo, if_true, ho]

lemma subFencesAux_step_close (fuel : Nat) (als : Bool) (c : Char) (rest : List Char) (n : Nat)
    (ho : matchOpenFence (c :: rest) = none) (hc : matchCloseFence (c :: rest) = some n) :
    subFencesAux (fuel + 1) als (c :: rest) =
      subFencesAux fuel (((c :: rest).take n).getLast? == some '\n') ((c :: rest).drop n) := by
  cases als <;>
    simp only [subFencesAux, subFencesGo, ho, hc, Bool.false_eq_true, if_false, if_true]

/-- After the opening fence is removed, a scanner positioned at a text
with no backticks and no trailing whitespace followed by the closing
`"\n```"` removes exactly that closing fence. -/
lemma subFencesAux_tail :
    ∀ t : List Char, t ≠ [] →
      (∀ c ∈ t, c ≠ '\x60') →
      (∀ c, t.getLast? = some c → pyIsSpace c = false) →
      ∀ fuel als, t.length + 2 ≤ fuel →
        subFencesAux fuel als (t ++ ['\n', '\x60', '\x60', '\x60']) = t := by
  intro t
  induction t with
  | nil => intro h; exact absurd rfl h
  | cons c t' ih =>
    intro _ hnb hlast fuel als hfuel
    simp only [List.length_cons] at hfuel
    rcases fuel with _ | f
    · omega
    have hcnb : c ≠ '\x60' := hnb c (by simp)
    have ho : matchOpenFence (c :: (t' ++ ['\n', '\x60', '\x60', '\x60'])) = none :=
      matchOpenFence_none_of_head hcnb
    by_cases ht' : t' = []
    · subst ht'
      have hcs : pyIsSpace c = false := hlast c rfl
      have hc : matchCloseFence (c :: (([] : List Char) ++ ['\n', '\x60', '\x60', '\x60'])) = none := by
        refine matchCloseFence_none_of (d := c) (r := ['\n', '\x60', '\x60', '\x60']) ?_ hcnb
        rw [List.nil_append, List.dropWhile_cons, if_neg (by simp [hcs])]
      rw [List.cons_append, List.nil_append] at *
      rw [subFencesAux_step_emit f als c _ ho hc]
      rcases f with _ | f1
      · omega
      have ho2 : matchOpenFence ['\n', '\x60', '\x60', '\x60'] = none :=
        matchOpenFence_none_of_head (by decide)
      have hc2 : matchCloseFence ['\n', '\x60', '\x60', '\x60'] = some 4 := by decide
      rw [subFencesAux_step_close f1 (c == '\n') '\n' _ 4 ho2 hc2]
      rcases f1 with _ | f2
      · omega
      rfl
    · have hlast' : ∀ d, t'.getLast? = some d → pyIsSpace d = false := by
        intro d hd
        refine hlast d ?_
        rcases t' with _ | ⟨r, rs⟩
        · exact absurd rfl ht'
        · simpa using hd
      obtain ⟨dl, hdl⟩ : ∃ dl, t'.getLast? = some dl := by
        rcases hx : t'.getLast? with _ | dl
        · rw [List.getLast?_eq_none_iff] at hx
          exact absurd hx ht'
        · exact ⟨dl, rfl⟩
      have hdl_mem : dl ∈ t' := List.mem_of_mem_getLast? hdl
      have hdl_space : pyIsSpace dl = false := hlast' dl hdl
      have hdw_ne : t'.dropWhile pyIsSpace ≠ [] := dropWhile_ne_nil_of_mem hdl_mem hdl_space
      obtain ⟨d0, r0, hd0⟩ : ∃ d0 r0, t'.dropWhile pyIsSpace = d0 :: r0 := by
        rcases hx : t'.dropWhile pyIsSpace with _ | ⟨d0, r0⟩
        · exact absurd hx hdw_ne
        · exact ⟨d0, r0, rfl⟩
      obtain ⟨hd0_space, hd0_mem⟩ := dropWhile_head_false hd0
      have hd0_nb : d0 ≠ '\x60' := hnb d0 (by simp [hd0_mem])
      have hdwa : (t' ++ ['\n', '\x60', '\x60', '\x60']).dropWhile pyIsSpace
          = d0 :: (r0 ++ ['\n', '\x60', '\x60', '\x60']) := by
        rw [dropWhile_append_of_ne_nil hdw_ne, hd0, List.cons_append]
      have hc : matchCloseFence (c :: (t' ++ ['\n', '\x60', '\x60', '\x60'])) = none := by
        by_cases hcs : pyIsSpace c = true
        · exact matchCloseFence_none_of
            (by rw [List.dropWhile_cons, if_pos hcs, hdwa]) hd0_nb
        · exact matchCloseFence_none_of
            (by rw [List.dropWhile_cons, if_neg hcs]) hcnb
      rw [List.cons_append, subFencesAux_step_emit f als c _ ho hc,
        ih ht' (fun d hd => hnb d (by simp [hd])) hlast' f (c == '\n') (by omega)]

/-- Python `str.strip` is the identity when the ends are not whitespace. -/
lemma pyStrip_eq_self (l : List Char)
    (h1 : ∀ c, l.head? = some c → pyIsSpace c = false)
    (h2 : ∀ c, l.getLast? = some c → pyIsSpace c = false) : pyStrip l = l := by
  have hd : l.dropWhile pyIsSpace = l := by
    cases l with
    | nil => rfl
    | cons a t =>
      rw [List.dropWhile_cons, if_neg (by simp [h1 a rfl])]
  rw [pyStrip, hd]
  have hr : l.reverse.dropWhile pyIsSpace = l.reverse := by
    rcases hl : l.reverse with _ | ⟨a, t⟩
    · rfl
    · have ha : l.getLast? = some a := by
        rw [List.getLast?_eq_head?_reverse, hl]
        rfl
      rw [List.dropWhile_cons, if_neg (by simp [h2 a ha])]
  rw [hr, List.reverse_reverse]

/-- Fence stripping on a fenced payload whose body has no backticks and
no surrounding whitespace: exactly the two fence markers are removed. -/
lemma strip_code_fences_fenced (s : String) (c0 cl : Char)
    (hh : s.data.head? = some c0) (hc0 : pyIsSpace c0 = false)
    (hl : s.data.getLast? = some cl) (hcl : pyIsSpace cl = false)
    (hnb : ('\x60' : Char) ∉ s.data) :
    strip_code_fences ("\x60\x60\x60json\n" ++ s ++ "\n\x60\x60\x60") = s := by
  obtain ⟨stail, hsd⟩ : ∃ t, s.data = c0 :: t := by
    rcases hx : s.data with _ | ⟨a, t⟩
    · rw [hx] at hh
      simp at hh
    · rw [hx] at hh
      simp only [List.head?_cons, Option.some.injEq] at hh
      exact ⟨t, by rw [hh]⟩
  have hform : ("\x60\x60\x60json\n" ++ s ++ "\n\x60\x60\x60").data
      = '\x60' :: '\x60' :: '\x60' :: 'j' :: 's' :: 'o' :: 'n' :: '\n'
        :: (s.data ++ ['\n', '\x60', '\x60', '\x60']) := by
    rw [String.data_append, String.data_append]
    rfl
  have hgl : ("\x60\x60\x60json\n" ++ s ++ "\n\x60\x60\x60").data.getLast? = some '\x60' := by
    rw [hform, show ('\x60' :: '\x60' :: '\x60' :: 'j' :: 's' :: 'o' :: 'n' :: '\n'
        :: (s.data ++ ['\n', '\x60', '\x60', '\x60']))
      = ('\x60' :: '\x60' :: '\x60' :: 'j' :: 's' :: 'o' :: 'n' :: '\n'
        :: (s.data ++ ['\n', '\x60', '\x60'])) ++ ['\x60'] from by simp, List.getLast?_concat]
  have hstrip : pyStrip ("\x60\x60\x60json\n" ++ s ++ "\n\x60\x60\x60").data
      = ("\x60\x60\x60json\n" ++ s ++ "\n\x60\x60\x60").data := by
    refine pyStrip_eq_self _ ?_ ?_
    · intro c hch
      rw [hform] at hch
      simp only [List.head?_cons, Option.some.injEq] at hch
      subst hch
      decide
    · intro c hch
      rw [hgl] at hch
      simp only [Option.some.injEq] at hch
      subst hch
      decide
  have hmkd : ∀ l : List Char, (String.mk l).data = l := fun _ => rfl
  have hTW : (('\n' :: (s.data ++ ['\n', '\x60', '\x60', '\x60'])).takeWhile pyIsSpace)
      = ['\n'] := by
    rw [List.takeWhile_cons, if_pos (by decide : pyIsSpace '\n' = true), hsd,
      List.cons_append, List.takeWhile_cons, if_neg (by simp [hc0])]
  have ho : matchOpenFence ('\x60' :: '\x60' :: '\x60' :: 'j' :: 's' :: 'o' :: 'n' :: '\n'
      :: (s.data ++ ['\n', '\x60', '\x60', '\x60'])) = some 8 := by
    show some (3 + 4 +
      (('\n' :: (s.data ++ ['\n', '\x60', '\x60', '\x60'])).takeWhile pyIsSpace).length) = some 8
    rw [hTW]
    rfl
  simp only [strip_code_fences]
  rw [hstrip, hmkd, if_pos (show _ = ['\x60', '\x60', '\x60'] from by rw [hform]; rfl)]
  simp only [subFences]
  rw [hform, subFencesAux_step_open _ _ _ 8 ho]
  have hbt : ((('\x60' :: '\x60' :: '\x60' :: 'j' :: 's' :: 'o' :: 'n' :: '\n'
      :: (s.data ++ ['\n', '\x60', '\x60', '\x60'])).take 8).getLast? == some '\n') = true := rfl
  have hdp : ('\x60' :: '\x60' :: '\x60' :: 'j' :: 's' :: 'o' :: 'n' :: '\n'
      :: (s.data ++ ['\n', '\x60', '\x60', '\x60'])).drop 8
      = s.data ++ ['\n', '\x60', '\x60', '\x60'] := rfl
  rw [hbt, hdp,
    subFencesAux_tail s.data (by rw [hsd]; simp)
      (fun c hc he => hnb (he ▸ hc))
      (by intro c hc; rw [hl, Option.some.injEq] at hc; exact hc ▸ hcl)
      _ true (by simp only [List.length_cons, List.length_append]; omega)]

/-- C5: the ResultParser is total for every string input (it yields
either the decoded value or the parse-failure marker; it never
propagates a failure), in particular on the empty string; and a valid
JSON record wrapped in a fenced code block (body with no backticks and
no surrounding whitespace) decodes to the record itself, not to a
failure marker. -/
theorem spec_C5 :
    (∀ payload : String,
      (∃ v, json_loads (strip_code_fences payload) = .ok v ∧ json_load_safely payload = v) ∨
      json_load_safely payload =
        .dict [("_erro_parse_json", .bool true),
               ("_amostra_resposta", .str (pyTake payload 1000))]) ∧
    (json_load_safely "" =
      .dict [("_erro_parse_json", .bool true), ("_amostra_resposta", .str "")]) ∧
    (∀ (s : String) (d : List (String × PyVal)) (c0 cl : Char),
      s.data.head? = some c0 → pyIsSpace c0 = false →
      s.data.getLast? = some cl → pyIsSpace cl = false →
      ('\x60' : Char) ∉ s.data →
      json_loads s = .ok (.dict d) →
      json_load_safely ("\x60\x60\x60json\n" ++ s ++ "\n\x60\x60\x60") = .dict d) := by
  refine ⟨?_, rfl, ?_⟩
  · intro payload
    cases h : json_loads (strip_code_fences payload) with
    | ok v => exact Or.inl ⟨v, rfl, by rw [json_load_safely, h]⟩
    | error e => exact Or.inr (by rw [json_load_safely, h])
  · intro s d c0 cl hh hc0 hl hcl hnb hj
    rw [json_load_safely, strip_code_fences_fenced s c0 cl hh hc0 hl hcl hnb, hj]

/-- Witness for C5: a fenced JSON record decodes to the record. -/
theorem spec_C5_witness :
    json_load_safely ("\x60\x60\x60json\n" ++ "\x7b\"a\": 1\x7d" ++ "\n\x60\x60\x60")
      = .dict [("a", .num "1")] :=
  spec_C5.2.2 "\x7b\"a\": 1\x7d" [("a", .num "1")] '\x7b' '\x7d'
    (by decide) (by decide) (by decide) (by decide) (by decide) rfl

end Estilo
